import Mathlib

/-!
# koko: login-confirmation gate and Kubernetes session bootstrap

A shallow embedding of `pkg/service/login_confirm.go` and `pkg/srvconn/k8s.go`.

Conventions of the embedding.

* Go `error` values are elements of `GoError`; a possibly-nil `error` is `Option GoError`.
* A Go `string` is a Lean `String`, read as the sequence of runes a `for range` loop
  over the Go string yields (an undecodable byte shows up as U+FFFD).
* Calls that leave the process (authorization backend, `bash`, process launch,
  encryption helper) are answered by explicit oracles; every such call is recorded
  in a trace so that "was called / was not called" is a statement about the trace.
* A nil-pointer dereference is the result `none`.
-/

namespace Koko

/-! ## Errors -/

/-- Go `error` values met by the two files. -/
inductive GoError where
  /-- The package-level sentinel `InValidToken = errors.New("invalid token")`. -/
  | InValidToken
  /-- Any error produced by a collaborator, identified by its message. -/
  | other (msg : String)
  /-- The result of `fmt.Errorf(pre ++ "%w", inner)`. -/
  | wrap (pre : String) (inner : GoError)
  deriving DecidableEq, Repr

/-- The text of `err.Error()`. -/
def GoError.Error : GoError → String
  | .InValidToken => "invalid token"
  | .other msg => msg
  | .wrap pre inner => pre ++ inner.Error

/-! ## `pkg/service/login_confirm.go` -/

namespace service

structure requestInfo where
  Method : String
  URL : String
  deriving DecidableEq, Repr

structure confirmStatusResponse where
  Status : String
  Action : String
  Processor : String
  deriving DecidableEq, Repr

/-- The fields of `model.User` the file reads. -/
structure User where
  ID : String
  deriving DecidableEq, Repr

/-- The fields of `model.SystemUser` the file reads. -/
structure SystemUser where
  ID : String
  Username : String
  deriving DecidableEq, Repr

/-- The struct `connectionConfirmOption`; the two pointer fields may be nil. -/
structure connectionConfirmOption where
  user : Option User
  systemUser : Option SystemUser
  targetType : String
  targetID : String
  deriving DecidableEq, Repr

/-- A Go slice header `[]string`: backing array, offset into it, length. -/
structure Slice where
  arr : Nat
  off : Nat
  len : Nat
  deriving DecidableEq, Repr

/-- The nil slice. -/
def Slice.nil : Slice := ⟨0, 0, 0⟩

structure LoginConfirmService where
  option : Option connectionConfirmOption
  checkReqInfo : requestInfo
  cancelReqInfo : requestInfo
  reviewers : Slice
  ticketDetailUrl : String
  processor : String
  deriving DecidableEq, Repr

structure checkAssetConfirmResponse where
  NeedConfirm : Bool
  CheckConfirmStatus : requestInfo
  CloseConfirm : requestInfo
  TicketDetailUrl : String
  Reviewers : Slice
  deriving DecidableEq, Repr

abbrev ConfirmOption := connectionConfirmOption → connectionConfirmOption

def ConfirmWithUser (user : Option User) : ConfirmOption :=
  fun option => { option with user := user }

def ConfirmWithSystemUser (sysUser : Option SystemUser) : ConfirmOption :=
  fun option => { option with systemUser := sysUser }

def ConfirmWithTargetType (targetType : String) : ConfirmOption :=
  fun option => { option with targetType := targetType }

def ConfirmWithTargetID (targetID : String) : ConfirmOption :=
  fun option => { option with targetID := targetID }

/-- The zero value of `connectionConfirmOption`. -/
def connectionConfirmOption.zero : connectionConfirmOption :=
  { user := none, systemUser := none, targetType := "", targetID := "" }

def NewLoginConfirm (opts : List ConfirmOption) : LoginConfirmService :=
  { option := some (opts.foldl (fun option setter => setter option) connectionConfirmOption.zero)
    checkReqInfo := ⟨"", ""⟩
    cancelReqInfo := ⟨"", ""⟩
    reviewers := Slice.nil
    ticketDetailUrl := ""
    processor := "" }

def approve : String := "approve"
def reject : String := "reject"
def await : String := "await"

abbrev Status := Int

def StatusApprove : Status := 0 + 1
def StatusReject : Status := 1 + 1
def StatusCancel : Status := 2 + 1

/-- The authorization backend as seen by `CheckIsNeedLoginConfirm`: the two query
functions of the package that the method calls, each giving its Go result pair. -/
structure Backend where
  /-- The value of the constant `model.AppType`. -/
  AppType : String
  /-- Answer of `checkIfNeedAppConnectionConfirm(userID, targetID, systemUserID)`. -/
  checkIfNeedAppConnectionConfirm : String → String → String → Bool × Option GoError
  /-- Answer of `checkIfNeedAssetLoginConfirm(userID, targetID, systemUserID, systemUsername)`. -/
  checkIfNeedAssetLoginConfirm :
    String → String → String → String → checkAssetConfirmResponse × Option GoError

/-- Method `CheckIsNeedLoginConfirm`: the returned pair and the receiver afterwards;
`none` when `c.option`, `c.option.user` or `c.option.systemUser` is nil. -/
def CheckIsNeedLoginConfirm (B : Backend) (c : LoginConfirmService) :
    Option ((Bool × Option GoError) × LoginConfirmService) := do
  let option ← c.option
  let user ← option.user
  let userID := user.ID
  let systemUser ← option.systemUser
  let systemUserID := systemUser.ID
  let systemUsername := systemUser.Username
  let targetID := option.targetID
  if option.targetType = B.AppType then
    pure (B.checkIfNeedAppConnectionConfirm userID targetID systemUserID, c)
  else
    match B.checkIfNeedAssetLoginConfirm userID targetID systemUserID systemUsername with
    | (_, some err) => pure ((false, some err), c)
    | (res, none) =>
      pure ((res.NeedConfirm, none),
        { c with
          reviewers := res.Reviewers
          checkReqInfo := res.CheckConfirmStatus
          cancelReqInfo := res.CloseConfirm
          ticketDetailUrl := res.TicketDetailUrl })

/-! ### Slices and their backing arrays -/

/-- The arrays that back `[]string` slices, addressed by position. -/
abbrev Heap := List (List String)

/-- The backing array of a slice (empty for a dangling header). -/
def Heap.array (h : Heap) (s : Slice) : List String := h.getD s.arr []

/-- The elements `s[0], …, s[len(s)-1]`. -/
def Slice.elems (h : Heap) (s : Slice) : List String :=
  ((h.array s).drop s.off).take s.len

/-- A slice header that lies inside its backing array. -/
def Slice.valid (h : Heap) (s : Slice) : Prop :=
  s.off + s.len ≤ (h.array s).length

instance (h : Heap) (s : Slice) : Decidable (s.valid h) := by
  unfold Slice.valid; infer_instance

/-- Go `make([]string, n)`: a new array of `n` empty strings and a slice over all of it. -/
def make (h : Heap) (n : Nat) : Slice × Heap :=
  (⟨h.length, 0, n⟩, h ++ [List.replicate n ""])

/-- Go `copy(dst, src)`: the first `min(len(dst), len(src))` elements of `src`
overwrite those of `dst`; returns the number copied. -/
def copy (h : Heap) (dst src : Slice) : Nat × Heap :=
  let n := min dst.len src.len
  let vals := (src.elems h).take n
  let a := h.array dst
  (n, h.set dst.arr (a.take dst.off ++ vals ++ a.drop (dst.off + vals.length)))

/-- Go `s[i] = v`; `none` is the index-out-of-range panic. -/
def Slice.assign (h : Heap) (s : Slice) (i : Nat) (v : String) : Option Heap :=
  if i < s.len then some (h.set s.arr ((h.array s).set (s.off + i) v)) else none

/-- Method `GetReviewers`: the returned slice, the receiver afterwards and the heap afterwards. -/
def GetReviewers (c : LoginConfirmService) (h : Heap) : Slice × LoginConfirmService × Heap :=
  let (reviewers, h1) := make h c.reviewers.len
  let (_, h2) := copy h1 reviewers c.reviewers
  (reviewers, c, h2)

def GetTicketUrl (c : LoginConfirmService) : String := c.ticketDetailUrl

def GetProcessor (c : LoginConfirmService) : String := c.processor

/-- What one iteration of the `select` in `waitConfirmFinish` observes, together
with the backend's answer to the single request that iteration sends. -/
inductive Event where
  /-- Case `<-ctx.Done()` fires; `cancelErr` is what `CancelConfirmByRequestInfo` returns. -/
  | done (cancelErr : Option GoError)
  /-- Case `<-t.C` fires; the pair is what `CheckConfirmStatusByRequestInfo` returns. -/
  | tick (statusRes : confirmStatusResponse) (err : Option GoError)
  deriving DecidableEq, Repr

/-- A request sent to the authorization backend. -/
inductive Call where
  | checkStatus (info : requestInfo)
  | cancel (info : requestInfo)
  deriving DecidableEq, Repr

/-- Everything observable of a run of the gate. -/
structure Run where
  /-- The returned `Status`, or `none` while the loop is still blocked in `select`. -/
  status : Option Status
  /-- The receiver afterwards. -/
  svc : LoginConfirmService
  /-- Backend requests, oldest first. -/
  calls : List Call
  /-- Lines written through `logger.Errorf`, oldest first. -/
  logs : List String
  deriving DecidableEq, Repr

/-- Method `cancelConfirm`: one cancel request with the stored descriptor; a failure is logged. -/
def cancelConfirm (c : LoginConfirmService) (cancelErr : Option GoError) :
    List Call × List String :=
  ([Call.cancel c.cancelReqInfo],
    match cancelErr with
    | some err => ["Cancel confirm request err: " ++ err.Error]
    | none => [])

/-- The loop of `waitConfirmFinish`, driven by the events its `select` observes.
`calls` and `logs` accumulate what has been sent and logged so far. -/
def waitConfirmFinishLoop (c : LoginConfirmService) (calls : List Call) (logs : List String) :
    List Event → Run
  | [] => { status := none, svc := c, calls := calls, logs := logs }
  | Event.done cancelErr :: _ =>
    let (cs, ls) := cancelConfirm c cancelErr
    { status := some StatusCancel, svc := c, calls := calls ++ cs, logs := logs ++ ls }
  | Event.tick statusRes err :: rest =>
    let calls := calls ++ [Call.checkStatus c.checkReqInfo]
    match err with
    | some e =>
      waitConfirmFinishLoop c calls (logs ++ ["Check confirm status err: " ++ e.Error]) rest
    | none =>
      if statusRes.Status = approve then
        { status := some StatusApprove, svc := { c with processor := statusRes.Processor },
          calls := calls, logs := logs }
      else if statusRes.Status = reject then
        { status := some StatusReject, svc := { c with processor := statusRes.Processor },
          calls := calls, logs := logs }
      else if statusRes.Status = await then
        waitConfirmFinishLoop c calls logs rest
      else
        waitConfirmFinishLoop c calls
          (logs ++ ["Receive unknown login confirm status " ++ statusRes.Status]) rest

def waitConfirmFinish (c : LoginConfirmService) (events : List Event) : Run :=
  waitConfirmFinishLoop c [] [] events

def WaitLoginConfirm (c : LoginConfirmService) (events : List Event) : Run :=
  waitConfirmFinish c events

/-! ### Vocabulary for statements about runs of the gate -/

/-- A poll that keeps the loop going: a query error, or a status that is neither
`approve` nor `reject` (that is, `await` or an unknown value). -/
def Event.isPending : Event → Bool
  | Event.done _ => false
  | Event.tick _ (some _) => true
  | Event.tick statusRes none => statusRes.Status ≠ approve && statusRes.Status ≠ reject

/-- The scenario of the specification: two polls answer `await`, the third answers
`approve` with processor `alice`. -/
def scenarioAlice : List Event :=
  [ Event.tick ⟨"await", "", ""⟩ none,
    Event.tick ⟨"await", "", ""⟩ none,
    Event.tick ⟨"approve", "", "alice"⟩ none ]

/-- A schedule with a failed poll, an unknown status and an `await` before a rejection. -/
def scenarioBob : List Event :=
  [ Event.tick ⟨"", "", ""⟩ (some (GoError.other "timeout")),
    Event.tick ⟨"pending", "", ""⟩ none,
    Event.tick ⟨"await", "", ""⟩ none,
    Event.tick ⟨"reject", "", "bob"⟩ none ]

/-- A cancellation observed after one `await` poll, with polls still to come that the
backend would have answered, the last one with an approval. -/
def scenarioLateCancel : List Event :=
  [ Event.tick ⟨"await", "", ""⟩ none,
    Event.done (some (GoError.other "timeout")),
    Event.tick ⟨"await", "", ""⟩ none,
    Event.tick ⟨"approve", "", "alice"⟩ none ]

/-- A backend that approves with an empty processor field. -/
def scenarioAnonymous : List Event :=
  [ Event.tick ⟨"approve", "", ""⟩ none ]

/-- A request for asset `a1` by user `u1` through system user `su1`/`root`. -/
def sampleGate : LoginConfirmService :=
  NewLoginConfirm
    [ConfirmWithUser (some ⟨"u1"⟩), ConfirmWithSystemUser (some ⟨"su1", "root"⟩),
      ConfirmWithTargetType "asset", ConfirmWithTargetID "a1"]

/-- The same request for an application target. -/
def sampleAppGate : LoginConfirmService :=
  NewLoginConfirm
    [ConfirmWithUser (some ⟨"u1"⟩), ConfirmWithSystemUser (some ⟨"su1", "root"⟩),
      ConfirmWithTargetType "app", ConfirmWithTargetID "a1"]

/-- The descriptor a backend returns when confirmation by `alice` is required. -/
def sampleResponse : checkAssetConfirmResponse :=
  { NeedConfirm := true
    CheckConfirmStatus := ⟨"GET", "/status/1"⟩
    CloseConfirm := ⟨"DELETE", "/status/1"⟩
    TicketDetailUrl := "/tickets/1"
    Reviewers := ⟨0, 0, 1⟩ }

/-- A backend that answers every query. -/
def sampleBackend : Backend :=
  { AppType := "app"
    checkIfNeedAppConnectionConfirm := fun _ _ _ => (true, none)
    checkIfNeedAssetLoginConfirm := fun _ _ _ _ => (sampleResponse, none) }

/-- A backend that cannot be reached. -/
def downBackend : Backend :=
  { AppType := "app"
    checkIfNeedAppConnectionConfirm := fun _ _ _ => (false, some (GoError.other "EOF"))
    checkIfNeedAssetLoginConfirm := fun _ _ _ _ =>
      (⟨true, ⟨"GET", "/x"⟩, ⟨"DELETE", "/x"⟩, "/t", ⟨0, 0, 1⟩⟩, some (GoError.other "EOF")) }

/-- A heap with one array, the reviewer list `alice`, `bob`. -/
def sampleHeap : Heap := [["alice", "bob"]]

/-- A gate whose reviewer slice covers that array. -/
def reviewedGate : LoginConfirmService :=
  { sampleGate with reviewers := ⟨0, 0, 2⟩ }

end service

/-! ## Go standard library functions used by `k8s.go` -/

namespace unicode

/-- Go `unicode.IsSpace`: the Latin-1 cases, then the `White_Space` table. -/
def IsSpace (r : Char) : Bool :=
  if r.toNat ≤ 0xFF then
    r = '\t' || r = '\n' || r.toNat = 0x0B || r.toNat = 0x0C || r = '\r' || r = ' ' ||
      r.toNat = 0x85 || r.toNat = 0xA0
  else
    r.toNat = 0x1680 || (0x2000 ≤ r.toNat && r.toNat ≤ 0x200A) || r.toNat = 0x2028 ||
      r.toNat = 0x2029 || r.toNat = 0x202F || r.toNat = 0x205F || r.toNat = 0x3000

/-- Go `unicode.ToLower`: ASCII is handled inline, every other rune is looked up in
the case table, here the parameter `tbl` (the value of `To(LowerCase, r)`). -/
def ToLower (tbl : Char → Char) (r : Char) : Char :=
  if r.toNat ≤ 0x7F then
    if 'A'.toNat ≤ r.toNat ∧ r.toNat ≤ 'Z'.toNat then Char.ofNat (r.toNat + ('a'.toNat - 'A'.toNat))
    else r
  else tbl r

end unicode

namespace strings

/-- Go `strings.TrimLeftFunc` on the runes of a string. -/
def TrimLeftFunc (s : List Char) (f : Char → Bool) : List Char := s.dropWhile f

/-- Go `strings.TrimRightFunc` on the runes of a string. -/
def TrimRightFunc (s : List Char) (f : Char → Bool) : List Char :=
  (s.reverse.dropWhile f).reverse

/-- Go `strings.TrimSpace`: leading and trailing white space, as defined by Unicode, removed. -/
def TrimSpace (s : String) : String :=
  ⟨TrimRightFunc (TrimLeftFunc s.data unicode.IsSpace) unicode.IsSpace⟩

/-- Go `strings.ToLower`: every rune mapped to its lower case. -/
def ToLower (tbl : Char → Char) (s : String) : String :=
  ⟨s.data.map (unicode.ToLower tbl)⟩

end strings

/-! ## `pkg/srvconn/k8s.go` -/

namespace srvconn

def InValidToken : GoError := GoError.InValidToken

def k8sInitFilename : String := "init-kubectl.sh"

/-- The value of `fmt.Sprintf(checkTokenCommand, a, b, c)`. -/
def checkTokenCommand (a b c : String) : String :=
  "kubectl --insecure-skip-tls-verify=" ++ a ++ " --token=" ++ b ++ " --server=" ++ c ++
    " auth can-i get pods"

structure k8sOptions where
  ClusterServer : String
  Username : String
  Token : String
  IsSkipTls : Bool
  /-- The Go `map[string]string`, as its key/value pairs. -/
  ExtraEnv : List (String × String)
  deriving DecidableEq, Repr

structure Windows where
  Width : Int
  Height : Int
  deriving DecidableEq, Repr

/-- The handle `*localcommand.LocalCommand` of a launched process. -/
structure LocalCommand where
  id : Nat
  deriving DecidableEq, Repr

/-- The struct `K8sCon`; both pointer fields may be nil. -/
structure K8sCon where
  options : Option k8sOptions
  LocalCommand : Option LocalCommand
  deriving DecidableEq, Repr

/-- What `k8s.go` takes from outside the file: tables and constants of other packages
and the answers of the operating system. -/
structure Platform where
  /-- The value of `unicode.To(unicode.LowerCase, r)` for runes above ASCII. -/
  lowerCase : Char → Char
  /-- Result of `exec.Command("bash", "-c", cmd).CombinedOutput()`. -/
  CombinedOutput : String → String × Option GoError
  /-- Result of `utils.Encrypt(text, key)`. -/
  Encrypt : String → String → String × Option GoError
  /-- The value of `config.CipherKey`. -/
  CipherKey : String
  /-- The value of `config.KubectlBanner`. -/
  KubectlBanner : String
  /-- The first result of `os.Getwd()`. -/
  Getwd : String
  /-- The function `filepath.Join` on two elements. -/
  Join : String → String → String
  /-- Result of `localcommand.New(name, argv, localcommand.WithEnv(env))`. -/
  New : String → List String → List String → Except GoError LocalCommand
  /-- The value of `os.Getenv("USER")`. -/
  USER : String

/-- Side effects of the functions of `k8s.go`, in program order. -/
inductive Effect where
  | exec (cmd : String)
  | encrypt (text key : String)
  | getwd
  | launch (name : String) (argv env : List String)
  | setWinSize (lcmd : LocalCommand) (w h : Int)
  | logInfo (msg : String)
  | logError (msg : String)
  deriving DecidableEq, Repr

/-- Function `isValidK8sUserToken`: the verdict and the effects; `none` when `o` is nil. -/
def isValidK8sUserToken (P : Platform) (o : Option k8sOptions) : Option (Bool × List Effect) := do
  let o ← o
  let skipVerifyTls := "true"
  let token := o.Token
  let server := o.ClusterServer
  let skipVerifyTls := if !o.IsSkipTls then "false" else skipVerifyTls
  let cmd := checkTokenCommand skipVerifyTls token server
  let r := P.CombinedOutput cmd
  let out := r.1
  let err := r.2
  let fx := [Effect.exec cmd]
  let fx := match err with
    | some e => fx ++ [Effect.logInfo e.Error]
    | none => fx
  let result := strings.TrimSpace out
  let lower := strings.ToLower P.lowerCase result
  if lower = "yes" ∨ lower = "no" then
    pure (true, fx ++ [Effect.logInfo "K8sCon check token success"])
  else
    pure (false, fx ++ [Effect.logError ("K8sCon check token err: " ++ result)])

abbrev k8sOption := k8sOptions → k8sOptions

def NewK8sCon (P : Platform) (ops : List k8sOption) : K8sCon :=
  let args : k8sOptions :=
    { Username := P.USER
      ClusterServer := "https://127.0.0.1:8443"
      Token := ""
      IsSkipTls := true
      ExtraEnv := [] }
  { options := some (ops.foldl (fun args setter => setter args) args), LocalCommand := none }

/-- Method `k8sOptions.Env`: the environment entries and the effects. -/
def Env (P : Platform) (o : k8sOptions) : List String × List Effect :=
  let (token, fx) :=
    match P.Encrypt o.Token P.CipherKey with
    | (_, some err) =>
      (o.Token, [Effect.encrypt o.Token P.CipherKey,
        Effect.logError ("Encrypt k8s token err: " ++ err.Error)])
    | (token, none) => (token, [Effect.encrypt o.Token P.CipherKey])
  let skipTls := if !o.IsSkipTls then "false" else "true"
  ([ "KUBECTL_USER=" ++ o.Username,
     "KUBECTL_CLUSTER=" ++ o.ClusterServer,
     "KUBECTL_INSECURE_SKIP_TLS_VERIFY=" ++ skipTls,
     "K8S_ENCRYPTED_TOKEN=" ++ token,
     "WELCOME_BANNER=" ++ P.KubectlBanner ], fx)

/-- Function `startK8SLocalCommand`: the result of the launch and the effects;
`none` when `con.options` is nil. -/
def startK8SLocalCommand (P : Platform) (con : K8sCon) :
    Option (Except GoError LocalCommand × List Effect) := do
  let pwd := P.Getwd
  let shPath := P.Join pwd k8sInitFilename
  let argv := ["--fork", "--pid", "--mount-proc", shPath]
  let options ← con.options
  let (env, fx) := Env P options
  pure (P.New "unshare" argv env, [Effect.getwd] ++ fx ++ [Effect.launch "unshare" argv env])

/-- Method `K8sCon.Connect`: the returned error, the receiver afterwards and the effects;
`none` when `k.options` is nil. -/
def Connect (P : Platform) (k : K8sCon) (win : Windows) :
    Option (Option GoError × K8sCon × List Effect) := do
  let (ok, fx) ← isValidK8sUserToken P k.options
  if !ok then
    pure (some InValidToken, k, fx)
  else
    let (r, fx1) ← startK8SLocalCommand P k
    match r with
    | .error err =>
      pure (some (GoError.wrap "K8sCon start local pty err: " err), k,
        fx ++ fx1 ++ [Effect.logError ("K8sCon start local pty err: " ++ err.Error)])
    | .ok lcmd =>
      let options ← k.options
      pure (none, { k with LocalCommand := some lcmd },
        fx ++ fx1 ++ [Effect.setWinSize lcmd win.Width win.Height,
          Effect.logInfo ("Connect K8s cluster server " ++ options.ClusterServer ++ " success")])

def KeepAlive (_k : K8sCon) : Option GoError := none

def K8sUsername (username : String) : k8sOption :=
  fun args => { args with Username := username }

def K8sToken (token : String) : k8sOption :=
  fun args => { args with Token := token }

def K8sClusterServer (clusterServer : String) : k8sOption :=
  fun args => { args with ClusterServer := clusterServer }

def K8sExtraEnvs (envs : List (String × String)) : k8sOption :=
  fun args => { args with ExtraEnv := envs }

def K8sSkipTls (isSkipTls : Bool) : k8sOption :=
  fun args => { args with IsSkipTls := isSkipTls }

/-! ### Vocabulary for statements about the cluster bootstrap -/

/-- The text of the probe command `isValidK8sUserToken` runs for options `o`. -/
def probeCommand (o : k8sOptions) : String :=
  checkTokenCommand (if !o.IsSkipTls then "false" else "true") o.Token o.ClusterServer

/-- A definitive answer of the probe, in the words of the specification: the output is
`yes` or `no` once surrounding white space is removed and letter case is ignored. -/
def Definitive (out : String) : Prop :=
  ∃ pre core suf : List Char, out.data = pre ++ core ++ suf ∧
    (∀ r ∈ pre, unicode.IsSpace r = true) ∧ (∀ r ∈ suf, unicode.IsSpace r = true) ∧
    (core.map Char.toLower = "yes".data ∨ core.map Char.toLower = "no".data)

/-- The case table sends no rune above ASCII to a letter of `yes` or `no` (true of the
Unicode tables, where only U+212A and U+0130 have an ASCII lower case, `k` and `i`). -/
def Platform.lowerCaseSound (P : Platform) : Prop :=
  ∀ r : Char, 0x7F < r.toNat → P.lowerCase r ∉ ['y', 'e', 's', 'n', 'o']

/-- Effects that belong to launching the local process: everything but the probe and logging. -/
def Effect.isLaunch : Effect → Bool
  | Effect.exec _ => false
  | Effect.logInfo _ => false
  | Effect.logError _ => false
  | Effect.encrypt _ _ => true
  | Effect.getwd => true
  | Effect.launch _ _ _ => true
  | Effect.setWinSize _ _ _ => true

/-- A platform whose `kubectl` answers every probe with `out` and `err`; the case table
is the identity above ASCII. -/
def probePlatform (out : String) (err : Option GoError) : Platform :=
  { lowerCase := fun r => r
    CombinedOutput := fun _ => (out, err)
    Encrypt := fun text _ => (text, none)
    CipherKey := "key"
    KubectlBanner := "Welcome"
    Getwd := "/opt/koko"
    Join := fun a b => a ++ "/" ++ b
    New := fun _ _ _ => Except.ok ⟨1⟩
    USER := "koko" }

/-- The probe reports that the token may not list pods: `kubectl` prints `no` and exits 1. -/
def denyPlatform : Platform := probePlatform "no\n" (some (GoError.other "exit status 1"))

/-- The probe is refused by the cluster. -/
def unauthorizedPlatform : Platform :=
  probePlatform "error: You must be logged in to the server (Unauthorized)\n"
    (some (GoError.other "exit status 1"))

/-- The probe answers `Yes` surrounded by white space. -/
def yesPlatform : Platform := probePlatform " Yes\r\n" none

/-- Options carrying the extra variable `FOO=bar`. -/
def fooOptions : k8sOptions :=
  { ClusterServer := "https://127.0.0.1:8443"
    Username := "koko"
    Token := "t0k3n"
    IsSkipTls := true
    ExtraEnv := [("FOO", "bar")] }

end srvconn

/-! ## Theorems: the confirmation gate -/

namespace service

theorem status_distinct :
    StatusApprove ≠ StatusReject ∧ StatusApprove ≠ StatusCancel ∧ StatusReject ≠ StatusCancel := by
  decide

theorem loop_done (c : LoginConfirmService) (calls : List Call) (logs : List String)
    (cancelErr : Option GoError) (rest : List Event) :
    waitConfirmFinishLoop c calls logs (Event.done cancelErr :: rest) =
      { status := some StatusCancel, svc := c, calls := calls ++ (cancelConfirm c cancelErr).1,
        logs := logs ++ (cancelConfirm c cancelErr).2 } := by
  simp only [waitConfirmFinishLoop]

theorem loop_approve (c : LoginConfirmService) (calls : List Call) (logs : List String)
    (statusRes : confirmStatusResponse) (rest : List Event) (h : statusRes.Status = approve) :
    waitConfirmFinishLoop c calls logs (Event.tick statusRes none :: rest) =
      { status := some StatusApprove, svc := { c with processor := statusRes.Processor },
        calls := calls ++ [Call.checkStatus c.checkReqInfo], logs := logs } := by
  simp only [waitConfirmFinishLoop, if_pos h]

theorem loop_reject (c : LoginConfirmService) (calls : List Call) (logs : List String)
    (statusRes : confirmStatusResponse) (rest : List Event) (h : statusRes.Status = reject) :
    waitConfirmFinishLoop c calls logs (Event.tick statusRes none :: rest) =
      { status := some StatusReject, svc := { c with processor := statusRes.Processor },
        calls := calls ++ [Call.checkStatus c.checkReqInfo], logs := logs } := by
  have hne : ¬ statusRes.Status = approve := by rw [h]; decide
  simp only [waitConfirmFinishLoop, if_neg hne, if_pos h]

/-- A pending poll sends one status check with the stored descriptor, may log, and
leaves the receiver alone. -/
theorem loop_step (c : LoginConfirmService) (calls : List Call) (logs : List String)
    (e : Event) (rest : List Event) (he : e.isPending = true) :
    ∃ logs1, waitConfirmFinishLoop c calls logs (e :: rest) =
      waitConfirmFinishLoop c (calls ++ [Call.checkStatus c.checkReqInfo]) logs1 rest := by
  cases e with
  | done cancelErr => simp [Event.isPending] at he
  | tick statusRes err =>
    cases err with
    | some e0 =>
      exact ⟨logs ++ ["Check confirm status err: " ++ e0.Error],
        by simp only [waitConfirmFinishLoop]⟩
    | none =>
      simp only [Event.isPending, Bool.and_eq_true, decide_eq_true_eq] at he
      by_cases hw : statusRes.Status = await
      · exact ⟨logs, by simp only [waitConfirmFinishLoop, if_neg he.1, if_neg he.2, if_pos hw]⟩
      · exact ⟨logs ++ ["Receive unknown login confirm status " ++ statusRes.Status],
          by simp only [waitConfirmFinishLoop, if_neg he.1, if_neg he.2, if_neg hw]⟩

/-- Every event is a pending poll, a cancellation, an approval or a rejection. -/
theorem event_cases (e : Event) :
    e.isPending = true ∨ (∃ cancelErr, e = Event.done cancelErr) ∨
      ∃ statusRes, e = Event.tick statusRes none ∧
        (statusRes.Status = approve ∨ statusRes.Status = reject) := by
  cases e with
  | done cancelErr => exact Or.inr (Or.inl ⟨cancelErr, rfl⟩)
  | tick statusRes err =>
    cases err with
    | some e0 => exact Or.inl rfl
    | none =>
      by_cases ha : statusRes.Status = approve
      · exact Or.inr (Or.inr ⟨statusRes, rfl, Or.inl ha⟩)
      · by_cases hr : statusRes.Status = reject
        · exact Or.inr (Or.inr ⟨statusRes, rfl, Or.inr hr⟩)
        · exact Or.inl (by simp [Event.isPending, ha, hr])

/-- Pending polls are consumed one by one. -/
theorem loop_pending (c : LoginConfirmService) (pre : List Event)
    (hpre : ∀ e ∈ pre, e.isPending = true) (calls : List Call) (logs : List String)
    (tl : List Event) :
    ∃ logs1, waitConfirmFinishLoop c calls logs (pre ++ tl) =
      waitConfirmFinishLoop c
        (calls ++ List.replicate pre.length (Call.checkStatus c.checkReqInfo)) logs1 tl := by
  induction pre generalizing calls logs with
  | nil => exact ⟨logs, by simp⟩
  | cons e pre ih =>
    have hrest : ∀ e ∈ pre, e.isPending = true := fun e he => hpre e (List.mem_cons_of_mem _ he)
    obtain ⟨l0, h0⟩ := loop_step c calls logs e (pre ++ tl) (hpre e (List.mem_cons_self _ _))
    obtain ⟨l1, h1⟩ := ih hrest (calls ++ [Call.checkStatus c.checkReqInfo]) l0
    refine ⟨l1, ?_⟩
    rw [List.cons_append, h0, h1]
    simp [List.replicate_succ]

/-- The requests of a run: status checks with the stored check descriptor, then, exactly
when the run ends in `StatusCancel`, one cancel request with the stored cancel descriptor. -/
theorem loop_calls (c : LoginConfirmService) (events : List Event) (calls : List Call)
    (logs : List String) :
    ∃ n, (waitConfirmFinishLoop c calls logs events).calls =
      calls ++ List.replicate n (Call.checkStatus c.checkReqInfo) ++
        (if (waitConfirmFinishLoop c calls logs events).status = some StatusCancel
          then [Call.cancel c.cancelReqInfo] else []) := by
  induction events generalizing calls logs with
  | nil => exact ⟨0, by simp [waitConfirmFinishLoop]⟩
  | cons e events ih =>
    rcases event_cases e with hp | ⟨ce, rfl⟩ | ⟨sr, rfl, ha | hr⟩
    · obtain ⟨l0, h0⟩ := loop_step c calls logs e events hp
      obtain ⟨n, hn⟩ := ih (calls ++ [Call.checkStatus c.checkReqInfo]) l0
      refine ⟨n + 1, ?_⟩
      rw [h0, hn]
      simp [List.replicate_succ]
    · exact ⟨0, by simp [loop_done, cancelConfirm]⟩
    · refine ⟨1, ?_⟩
      rw [loop_approve c calls logs sr events ha]
      have := status_distinct.2.1
      simp [this]
    · refine ⟨1, ?_⟩
      rw [loop_reject c calls logs sr events hr]
      have := status_distinct.2.2
      simp [this]

/-- The shape of a run by its result: the loop returns on the first event that is not a
pending poll, and only an approving or rejecting poll writes the processor. -/
theorem loop_outcome (c : LoginConfirmService) (events : List Event) (calls : List Call)
    (logs : List String) :
    ((waitConfirmFinishLoop c calls logs events).status = none ∧
      (waitConfirmFinishLoop c calls logs events).svc = c ∧
      ∀ e ∈ events, e.isPending = true) ∨
    (∃ pre cancelErr post, events = pre ++ Event.done cancelErr :: post ∧
      (∀ e ∈ pre, e.isPending = true) ∧
      (waitConfirmFinishLoop c calls logs events).status = some StatusCancel ∧
      (waitConfirmFinishLoop c calls logs events).svc = c) ∨
    (∃ pre statusRes post, events = pre ++ Event.tick statusRes none :: post ∧
      (∀ e ∈ pre, e.isPending = true) ∧
      ((statusRes.Status = approve ∧
          (waitConfirmFinishLoop c calls logs events).status = some StatusApprove) ∨
        (statusRes.Status = reject ∧
          (waitConfirmFinishLoop c calls logs events).status = some StatusReject)) ∧
      (waitConfirmFinishLoop c calls logs events).svc =
        { c with processor := statusRes.Processor }) := by
  induction events generalizing calls logs with
  | nil => exact Or.inl ⟨rfl, rfl, by simp⟩
  | cons e events ih =>
    rcases event_cases e with hp | ⟨ce, rfl⟩ | ⟨sr, rfl, ha | hr⟩
    · obtain ⟨l0, h0⟩ := loop_step c calls logs e events hp
      have hcons : ∀ pre : List Event, (∀ e1 ∈ pre, e1.isPending = true) →
          ∀ e1 ∈ e :: pre, e1.isPending = true := by
        intro pre hpre e1 he1
        rcases List.mem_cons.1 he1 with rfl | hm
        · exact hp
        · exact hpre e1 hm
      rw [h0]
      rcases ih (calls ++ [Call.checkStatus c.checkReqInfo]) l0 with
        h | ⟨pre, ce, post, h1, h2, h3⟩ | ⟨pre, sr, post, h1, h2, h3⟩
      · exact Or.inl ⟨h.1, h.2.1, hcons events h.2.2⟩
      · exact Or.inr (Or.inl ⟨e :: pre, ce, post, by simp [h1], hcons pre h2, h3⟩)
      · exact Or.inr (Or.inr ⟨e :: pre, sr, post, by simp [h1], hcons pre h2, h3⟩)
    · exact Or.inr (Or.inl ⟨[], ce, events, rfl, by simp, by simp [loop_done], by simp [loop_done]⟩)
    · rw [loop_approve c calls logs sr events ha]
      exact Or.inr (Or.inr ⟨[], sr, events, rfl, by simp, Or.inl ⟨ha, rfl⟩, rfl⟩)
    · rw [loop_reject c calls logs sr events hr]
      exact Or.inr (Or.inr ⟨[], sr, events, rfl, by simp, Or.inr ⟨hr, rfl⟩, rfl⟩)

/-- C1: with no cancellation, if every poll before the last is pending (status `await`,
an unknown status, or a query error) and the last poll answers `approve` (respectively
`reject`) with processor `p`, then `WaitLoginConfirm` returns `StatusApprove`
(respectively `StatusReject`) and `GetProcessor()` is `p` afterwards. -/
theorem wait_returns_decision (c : LoginConfirmService) (pre : List Event)
    (statusRes : confirmStatusResponse) (hpre : ∀ e ∈ pre, e.isPending = true) :
    (statusRes.Status = approve →
      (WaitLoginConfirm c (pre ++ [Event.tick statusRes none])).status = some StatusApprove ∧
      GetProcessor (WaitLoginConfirm c (pre ++ [Event.tick statusRes none])).svc =
        statusRes.Processor) ∧
    (statusRes.Status = reject →
      (WaitLoginConfirm c (pre ++ [Event.tick statusRes none])).status = some StatusReject ∧
      GetProcessor (WaitLoginConfirm c (pre ++ [Event.tick statusRes none])).svc =
        statusRes.Processor) := by
  obtain ⟨l1, h1⟩ := loop_pending c pre hpre [] [] [Event.tick statusRes none]
  refine ⟨fun ha => ?_, fun hr => ?_⟩
  · simp only [WaitLoginConfirm, waitConfirmFinish, h1, loop_approve _ _ _ _ _ ha, GetProcessor,
      and_self]
  · simp only [WaitLoginConfirm, waitConfirmFinish, h1, loop_reject _ _ _ _ _ hr, GetProcessor,
      and_self]

/-- The scenario of the specification: polls `await`, `await`, `approve`/`alice` give
`StatusApprove` with processor `alice`. -/
theorem wait_returns_decision_witness :
    (∀ e ∈ scenarioAlice.take 2, e.isPending = true) ∧
    (WaitLoginConfirm (NewLoginConfirm []) scenarioAlice).status = some StatusApprove ∧
    GetProcessor (WaitLoginConfirm (NewLoginConfirm []) scenarioAlice).svc = "alice" :=
  ⟨by decide,
    (wait_returns_decision (NewLoginConfirm []) (scenarioAlice.take 2)
      ⟨"approve", "", "alice"⟩ (by decide)).1 rfl⟩

/-- C2: when the cancellation is the first event observed, `WaitLoginConfirm` returns
`StatusCancel`, sends no status check and exactly one cancel request, built from the
stored cancel descriptor, whether or not that request fails; in every run all status
checks precede the cancel request, which is sent exactly when the run is cancelled; and
when the cancellation is observed after any number of pending polls, the run returns
`StatusCancel` at once: its requests are one status check per poll before the
cancellation and then the one cancel request, whatever polls the schedule still holds,
so no status check is issued after the cancellation. -/
theorem cancel_first_and_final (c : LoginConfirmService) :
    (∀ (cancelErr : Option GoError) (rest : List Event),
      (WaitLoginConfirm c (Event.done cancelErr :: rest)).status = some StatusCancel ∧
      (WaitLoginConfirm c (Event.done cancelErr :: rest)).calls =
        [Call.cancel c.cancelReqInfo] ∧
      (WaitLoginConfirm c (Event.done cancelErr :: rest)).svc = c) ∧
    (∀ events : List Event, ∃ n,
      (WaitLoginConfirm c events).calls =
        List.replicate n (Call.checkStatus c.checkReqInfo) ++
          (if (WaitLoginConfirm c events).status = some StatusCancel
            then [Call.cancel c.cancelReqInfo] else [])) ∧
    (∀ (pre : List Event) (cancelErr : Option GoError) (rest : List Event),
      (∀ e ∈ pre, e.isPending = true) →
      (WaitLoginConfirm c (pre ++ Event.done cancelErr :: rest)).status = some StatusCancel ∧
      (WaitLoginConfirm c (pre ++ Event.done cancelErr :: rest)).calls =
        List.replicate pre.length (Call.checkStatus c.checkReqInfo) ++
          [Call.cancel c.cancelReqInfo] ∧
      (WaitLoginConfirm c (pre ++ Event.done cancelErr :: rest)).svc = c) := by
  refine ⟨fun cancelErr rest => ?_, fun events => ?_, fun pre cancelErr rest hpre => ?_⟩
  · simp [WaitLoginConfirm, waitConfirmFinish, loop_done, cancelConfirm]
  · obtain ⟨n, hn⟩ := loop_calls c events [] []
    exact ⟨n, by simpa [WaitLoginConfirm, waitConfirmFinish] using hn⟩
  · obtain ⟨l1, h1⟩ := loop_pending c pre hpre [] [] (Event.done cancelErr :: rest)
    simp [WaitLoginConfirm, waitConfirmFinish, h1, loop_done, cancelConfirm]

/-- A cancellation after one `await` poll: the run returns `StatusCancel` having sent
one status check and then the cancel request; the two polls that follow in the
schedule, an approval among them, are never made. -/
theorem cancel_first_and_final_witness :
    (∀ e ∈ scenarioLateCancel.take 1, e.isPending = true) ∧
    (WaitLoginConfirm sampleGate scenarioLateCancel).status = some StatusCancel ∧
    (WaitLoginConfirm sampleGate scenarioLateCancel).calls =
      [Call.checkStatus sampleGate.checkReqInfo, Call.cancel sampleGate.cancelReqInfo] ∧
    (WaitLoginConfirm sampleGate scenarioLateCancel).svc = sampleGate :=
  ⟨by decide,
    (cancel_first_and_final sampleGate).2.2 (scenarioLateCancel.take 1)
      (some (GoError.other "timeout")) (scenarioLateCancel.drop 2) (by decide)⟩

/-- C6 as stated fails: a freshly constructed gate whose backend approves with an empty
processor field returns `StatusApprove` and `GetProcessor()` is empty afterwards. -/
theorem processor_nonempty_iff_decided_fails :
    ¬ (∀ events : List Event,
      (WaitLoginConfirm (NewLoginConfirm []) events).status ≠ none →
      (GetProcessor (WaitLoginConfirm (NewLoginConfirm []) events).svc ≠ "" ↔
        ((WaitLoginConfirm (NewLoginConfirm []) events).status = some StatusApprove ∨
          (WaitLoginConfirm (NewLoginConfirm []) events).status = some StatusReject))) := by
  intro h
  have h1 := h scenarioAnonymous (by decide)
  have h2 : (WaitLoginConfirm (NewLoginConfirm []) scenarioAnonymous).status =
      some StatusApprove := by decide
  exact (h1.2 (Or.inl h2)) (by decide)

/-- C6, amended: on a gate whose processor is empty (as on a freshly constructed one),
after `StatusCancel` `GetProcessor()` is empty; after `StatusApprove` or `StatusReject`
it is the processor field of the approving or rejecting poll response, verbatim; hence
a non-empty `GetProcessor()` occurs only after `StatusApprove` or `StatusReject`. -/
theorem processor_after_wait (c : LoginConfirmService) (events : List Event)
    (hfresh : c.processor = "") :
    ((WaitLoginConfirm c events).status = some StatusCancel →
      GetProcessor (WaitLoginConfirm c events).svc = "") ∧
    (((WaitLoginConfirm c events).status = some StatusApprove ∨
        (WaitLoginConfirm c events).status = some StatusReject) →
      ∃ pre statusRes post, events = pre ++ Event.tick statusRes none :: post ∧
        (∀ e ∈ pre, e.isPending = true) ∧
        (statusRes.Status = approve ∨ statusRes.Status = reject) ∧
        GetProcessor (WaitLoginConfirm c events).svc = statusRes.Processor) ∧
    (GetProcessor (WaitLoginConfirm c events).svc ≠ "" →
      ((WaitLoginConfirm c events).status = some StatusApprove ∨
        (WaitLoginConfirm c events).status = some StatusReject)) := by
  have hd := status_distinct
  simp only [WaitLoginConfirm, waitConfirmFinish, GetProcessor]
  rcases loop_outcome c events [] [] with
    ⟨h1, h2, _⟩ | ⟨pre, ce, post, _, _, h3, h4⟩ | ⟨pre, sr, post, h1, h2, h3, h4⟩
  · rw [h1, h2]
    simp [hfresh]
  · rw [h3, h4]
    refine ⟨fun _ => hfresh, fun h => ?_, fun h => absurd hfresh h⟩
    rcases h with h | h
    · exact absurd (Option.some.inj h).symm hd.2.1
    · exact absurd (Option.some.inj h).symm hd.2.2
  · rw [h4]
    rcases h3 with ⟨ha, hs⟩ | ⟨hr, hs⟩
    · rw [hs]
      refine ⟨fun h => absurd (Option.some.inj h) hd.2.1, fun _ => ?_, fun _ => Or.inl rfl⟩
      exact ⟨pre, sr, post, h1, h2, Or.inl ha, rfl⟩
    · rw [hs]
      refine ⟨fun h => absurd (Option.some.inj h) hd.2.2, fun _ => ?_, fun _ => Or.inr rfl⟩
      exact ⟨pre, sr, post, h1, h2, Or.inr hr, rfl⟩

/-- On a freshly constructed gate the schedule `scenarioBob` ends in `StatusReject`
with processor `bob`, the processor of the rejecting poll. -/
theorem processor_after_wait_witness :
    (NewLoginConfirm []).processor = "" ∧
    (WaitLoginConfirm (NewLoginConfirm []) scenarioBob).status = some StatusReject ∧
    ∃ pre statusRes post, scenarioBob = pre ++ Event.tick statusRes none :: post ∧
      (∀ e ∈ pre, e.isPending = true) ∧
      (statusRes.Status = approve ∨ statusRes.Status = reject) ∧
      GetProcessor (WaitLoginConfirm (NewLoginConfirm []) scenarioBob).svc =
        statusRes.Processor :=
  ⟨rfl, by decide,
    (processor_after_wait (NewLoginConfirm []) scenarioBob rfl).2.1 (Or.inr (by decide))⟩

/-- C8: `CheckIsNeedLoginConfirm` dispatches on the target type. When it is not the
application type and the asset query succeeds with response `r`, the call returns
`(r.NeedConfirm, nil)` and the gate afterwards holds `r`'s reviewers, ticket URL,
status-check descriptor and cancel descriptor verbatim (its other fields unchanged).
When it is the application type, the call returns exactly the result of the application
check and leaves the gate unchanged. -/
theorem check_dispatch (B : Backend) (c : LoginConfirmService) (o : connectionConfirmOption)
    (u : User) (su : SystemUser) (ho : c.option = some o) (hu : o.user = some u)
    (hsu : o.systemUser = some su) :
    (o.targetType ≠ B.AppType →
      ∀ r : checkAssetConfirmResponse,
        B.checkIfNeedAssetLoginConfirm u.ID o.targetID su.ID su.Username = (r, none) →
        CheckIsNeedLoginConfirm B c = some ((r.NeedConfirm, none),
          { option := c.option
            checkReqInfo := r.CheckConfirmStatus
            cancelReqInfo := r.CloseConfirm
            reviewers := r.Reviewers
            ticketDetailUrl := r.TicketDetailUrl
            processor := c.processor })) ∧
    (o.targetType = B.AppType →
      CheckIsNeedLoginConfirm B c =
        some (B.checkIfNeedAppConnectionConfirm u.ID o.targetID su.ID, c)) := by
  refine ⟨fun ht r hr => ?_, fun ht => ?_⟩
  · simp [CheckIsNeedLoginConfirm, ho, hu, hsu, ht, hr]
  · simp [CheckIsNeedLoginConfirm, ho, hu, hsu, ht]

/-- An asset request and an application request answered by `sampleBackend`. -/
theorem check_dispatch_witness :
    CheckIsNeedLoginConfirm sampleBackend sampleGate = some ((true, none),
      { option := sampleGate.option
        checkReqInfo := ⟨"GET", "/status/1"⟩
        cancelReqInfo := ⟨"DELETE", "/status/1"⟩
        reviewers := ⟨0, 0, 1⟩
        ticketDetailUrl := "/tickets/1"
        processor := "" }) ∧
    CheckIsNeedLoginConfirm sampleBackend sampleAppGate = some ((true, none), sampleAppGate) :=
  ⟨(check_dispatch sampleBackend sampleGate ⟨some ⟨"u1"⟩, some ⟨"su1", "root"⟩, "asset", "a1"⟩
      ⟨"u1"⟩ ⟨"su1", "root"⟩ rfl rfl rfl).1 (by decide) sampleResponse rfl,
    (check_dispatch sampleBackend sampleAppGate ⟨some ⟨"u1"⟩, some ⟨"su1", "root"⟩, "app", "a1"⟩
      ⟨"u1"⟩ ⟨"su1", "root"⟩ rfl rfl rfl).2 rfl⟩

/-- C9: when the backend query behind `CheckIsNeedLoginConfirm` returns error `e`, the
call returns that error; on the asset-like path the boolean is `false`, and on either
path no field of the gate is modified. -/
theorem check_backend_error (B : Backend) (c : LoginConfirmService)
    (o : connectionConfirmOption) (u : User) (su : SystemUser) (e : GoError)
    (ho : c.option = some o) (hu : o.user = some u) (hsu : o.systemUser = some su) :
    (o.targetType ≠ B.AppType →
      ∀ r : checkAssetConfirmResponse,
        B.checkIfNeedAssetLoginConfirm u.ID o.targetID su.ID su.Username = (r, some e) →
        CheckIsNeedLoginConfirm B c = some ((false, some e), c)) ∧
    (o.targetType = B.AppType →
      ∀ b : Bool,
        B.checkIfNeedAppConnectionConfirm u.ID o.targetID su.ID = (b, some e) →
        CheckIsNeedLoginConfirm B c = some ((b, some e), c)) := by
  refine ⟨fun ht r hr => ?_, fun ht b hb => ?_⟩
  · simp [CheckIsNeedLoginConfirm, ho, hu, hsu, ht, hr]
  · simp [CheckIsNeedLoginConfirm, ho, hu, hsu, ht, hb]

/-- Both paths against `downBackend`. -/
theorem check_backend_error_witness :
    CheckIsNeedLoginConfirm downBackend sampleGate =
      some ((false, some (GoError.other "EOF")), sampleGate) ∧
    CheckIsNeedLoginConfirm downBackend sampleAppGate =
      some ((false, some (GoError.other "EOF")), sampleAppGate) :=
  ⟨(check_backend_error downBackend sampleGate
      ⟨some ⟨"u1"⟩, some ⟨"su1", "root"⟩, "asset", "a1"⟩ ⟨"u1"⟩ ⟨"su1", "root"⟩
      (GoError.other "EOF") rfl rfl rfl).1 (by decide) _ rfl,
    (check_backend_error downBackend sampleAppGate
      ⟨some ⟨"u1"⟩, some ⟨"su1", "root"⟩, "app", "a1"⟩ ⟨"u1"⟩ ⟨"su1", "root"⟩
      (GoError.other "EOF") rfl rfl rfl).2 rfl _ rfl⟩

theorem elems_length (h : Heap) (s : Slice) (hv : s.valid h) : (s.elems h).length = s.len := by
  unfold Slice.valid at hv
  simp only [Slice.elems, List.length_take, List.length_drop]
  omega

theorem array_append (h : Heap) (a : List String) (s : Slice) (hv : s.valid h) (hl : 0 < s.len) :
    Heap.array (h ++ [a]) s = Heap.array h s := by
  unfold Slice.valid at hv
  have hlt : s.arr < h.length := by
    by_contra hge
    have : Heap.array h s = [] := by
      unfold Heap.array
      exact List.getD_eq_default _ _ (by omega)
    rw [this] at hv
    simp at hv
    omega
  unfold Heap.array
  exact List.getD_append _ _ _ _ hlt

theorem elems_append (h : Heap) (a : List String) (s : Slice) (hv : s.valid h) :
    s.elems (h ++ [a]) = s.elems h := by
  by_cases hl : 0 < s.len
  · simp only [Slice.elems, array_append h a s hv hl]
  · have : s.len = 0 := by omega
    simp [Slice.elems, this]

theorem valid_append (h : Heap) (a : List String) (s : Slice) (hv : s.valid h) :
    s.valid (h ++ [a]) := by
  by_cases hl : 0 < s.len
  · unfold Slice.valid
    rw [array_append h a s hv hl]
    exact hv
  · unfold Slice.valid at hv ⊢
    by_cases hlt : s.arr < h.length
    · have : Heap.array (h ++ [a]) s = Heap.array h s := by
        unfold Heap.array
        exact List.getD_append _ _ _ _ hlt
      rw [this]; exact hv
    · have : Heap.array h s = [] := by
        unfold Heap.array
        exact List.getD_eq_default _ _ (by omega)
      rw [this] at hv
      simp at hv
      omega

theorem set_last (h : Heap) (a b : List String) : (h ++ [a]).set h.length b = h ++ [b] := by
  induction h with
  | nil => rfl
  | cons x h ih => simp [List.set, ih]

theorem array_last (h : Heap) (a : List String) (o n : Nat) :
    Heap.array (h ++ [a]) ⟨h.length, o, n⟩ = a := by
  unfold Heap.array
  simp [List.getD_eq_getElem?_getD]

theorem GetReviewers_eq (c : LoginConfirmService) (h : Heap) (hv : c.reviewers.valid h) :
    GetReviewers c h = (⟨h.length, 0, c.reviewers.len⟩, c, h ++ [c.reviewers.elems h]) := by
  have hlen := elems_length h _ hv
  simp only [GetReviewers, make, copy, elems_append h _ _ hv, array_last, Nat.min_self,
    List.take_zero, List.nil_append, Nat.zero_add, set_last]
  rw [← hlen, List.take_length, List.drop_eq_nil_of_le (by simp [hlen]), List.append_nil]

/-- C10: on a gate whose reviewer slice lies inside its backing array, `GetReviewers()`
returns the stored reviewer ids in the stored order, leaves the gate and every existing
array unchanged, and returns a fresh copy: assigning any value to any element of the
returned slice changes the returned slice only, so the stored list and the result
of a later `GetReviewers()` call are as before. -/
theorem get_reviewers_copy (c : LoginConfirmService) (h : Heap) (hv : c.reviewers.valid h) :
    (GetReviewers c h).1.elems (GetReviewers c h).2.2 = c.reviewers.elems h ∧
    (GetReviewers c h).2.1 = c ∧
    (∃ a, (GetReviewers c h).2.2 = h ++ [a]) ∧
    c.reviewers.elems (GetReviewers c h).2.2 = c.reviewers.elems h ∧
    ∀ (i : Nat) (v : String), i < (GetReviewers c h).1.len →
      ∃ h3, (GetReviewers c h).1.assign (GetReviewers c h).2.2 i v = some h3 ∧
        (GetReviewers c h).1.elems h3 = (c.reviewers.elems h).set i v ∧
        c.reviewers.elems h3 = c.reviewers.elems h ∧
        (GetReviewers c h3).1.elems (GetReviewers c h3).2.2 = c.reviewers.elems h := by
  have hlen := elems_length h _ hv
  have hread : ∀ (l : Heap) (a : List String), a.length = c.reviewers.len →
      Slice.elems (l ++ [a]) ⟨l.length, 0, c.reviewers.len⟩ = a := by
    intro l a ha
    simp only [Slice.elems, array_last, List.drop_zero]
    rw [← ha, List.take_length]
  rw [GetReviewers_eq c h hv]
  refine ⟨hread _ _ hlen, rfl, ⟨_, rfl⟩, elems_append h _ _ hv, ?_⟩
  intro i v hi
  have hi : i < c.reviewers.len := hi
  have hv3 := valid_append h ((c.reviewers.elems h).set i v) _ hv
  refine ⟨h ++ [(c.reviewers.elems h).set i v], ?_, ?_, elems_append h _ _ hv, ?_⟩
  · simp only [Slice.assign, if_pos hi, array_last, Nat.zero_add, set_last]
  · exact hread _ _ (by simp [hlen])
  · rw [GetReviewers_eq c _ hv3]
    show Slice.elems (_ ++ [_]) ⟨_, 0, c.reviewers.len⟩ = _
    rw [hread _ _ (elems_length _ _ hv3)]
    exact elems_append h _ _ hv

/-- The copy made by `GetReviewers` on `reviewedGate`: overwriting its first element leaves a later `GetReviewers()` at `alice`, `bob`. -/
theorem get_reviewers_copy_witness :
    reviewedGate.reviewers.valid sampleHeap ∧
    (GetReviewers reviewedGate sampleHeap).1.elems (GetReviewers reviewedGate sampleHeap).2.2 =
      ["alice", "bob"] ∧
    ∃ h3, (GetReviewers reviewedGate sampleHeap).1.assign
        (GetReviewers reviewedGate sampleHeap).2.2 0 "mallory" = some h3 ∧
      (GetReviewers reviewedGate sampleHeap).1.elems h3 = ["mallory", "bob"] ∧
      reviewedGate.reviewers.elems h3 = ["alice", "bob"] ∧
      (GetReviewers reviewedGate h3).1.elems (GetReviewers reviewedGate h3).2.2 =
        ["alice", "bob"] :=
  ⟨by decide, (get_reviewers_copy reviewedGate sampleHeap (by decide)).1,
    (get_reviewers_copy reviewedGate sampleHeap (by decide)).2.2.2.2 0 "mallory" (by decide)⟩

end service

/-! ## Theorems: the cluster session bootstrap -/

namespace srvconn

theorem toNat_of_mem_letters (t : Char) (ht : t ∈ ['y', 'e', 's', 'n', 'o']) :
    97 ≤ t.toNat ∧ t.toNat ≤ 122 := by
  simp only [List.mem_cons, List.mem_singleton, List.not_mem_nil, or_false] at ht
  rcases ht with rfl | rfl | rfl | rfl | rfl <;> decide

/-- On ASCII, `unicode.ToLower` is the ASCII lower-casing `Char.toLower`. -/
theorem ToLower_ascii (tbl : Char → Char) (r : Char) (h : r.toNat ≤ 0x7F) :
    unicode.ToLower tbl r = Char.toLower r := by
  simp only [unicode.ToLower, if_pos h, Char.toLower]
  rfl

theorem toLower_above (r : Char) (h : 0x7F < r.toNat) : Char.toLower r = r := by
  simp only [Char.toLower]
  rw [if_neg]
  omega

theorem ToLower_eq_letter (tbl : Char → Char)
    (htbl : ∀ r : Char, 0x7F < r.toNat → tbl r ∉ ['y', 'e', 's', 'n', 'o'])
    (r t : Char) (ht : t ∈ ['y', 'e', 's', 'n', 'o']) :
    unicode.ToLower tbl r = t ↔ Char.toLower r = t := by
  by_cases h : r.toNat ≤ 0x7F
  · rw [ToLower_ascii tbl r h]
  · have h1 : 0x7F < r.toNat := by omega
    have hb := toNat_of_mem_letters t ht
    constructor
    · intro h2
      have h3 : unicode.ToLower tbl r = tbl r := by simp only [unicode.ToLower, if_neg h]
      rw [h3] at h2
      exact absurd (h2 ▸ ht) (htbl r h1)
    · intro h2
      rw [toLower_above r h1] at h2
      subst h2
      omega

theorem IsSpace_not_letter (r : Char) (h : unicode.IsSpace r = true) :
    ¬ (65 ≤ r.toNat ∧ r.toNat ≤ 122) := by
  unfold unicode.IsSpace at h
  split at h
  · simp only [Bool.or_eq_true, decide_eq_true_eq] at h
    rcases h with ((((((h | h) | h) | h) | h) | h) | h) | h
    all_goals first | (subst h; decide) | omega
  · omega

theorem dropWhile_append_all (f : Char → Bool) (pre x : List Char)
    (h : ∀ r ∈ pre, f r = true) : (pre ++ x).dropWhile f = x.dropWhile f := by
  induction pre with
  | nil => rfl
  | cons a pre ih =>
    have ha := h a (List.mem_cons_self _ _)
    simp only [List.cons_append, List.dropWhile_cons, ha, if_true]
    exact ih (fun r hr => h r (List.mem_cons_of_mem _ hr))

/-- Trimming removes a prefix and a suffix that consist of matching runes. -/
theorem trim_split (f : Char → Bool) (l : List Char) :
    ∃ pre suf, l = pre ++ strings.TrimRightFunc (strings.TrimLeftFunc l f) f ++ suf ∧
      (∀ r ∈ pre, f r = true) ∧ (∀ r ∈ suf, f r = true) := by
  refine ⟨l.takeWhile f, (((l.dropWhile f).reverse).takeWhile f).reverse, ?_, ?_, ?_⟩
  · have h1 : (l.dropWhile f).reverse =
        ((l.dropWhile f).reverse).takeWhile f ++ ((l.dropWhile f).reverse).dropWhile f :=
      (List.takeWhile_append_dropWhile _ _).symm
    have h2 := congrArg List.reverse h1
    rw [List.reverse_reverse, List.reverse_append] at h2
    simp only [strings.TrimRightFunc, strings.TrimLeftFunc, List.append_assoc]
    rw [← h2, List.takeWhile_append_dropWhile]
  · intro r hr
    exact List.mem_takeWhile_imp hr
  · intro r hr
    exact List.mem_takeWhile_imp (List.mem_reverse.1 hr)

/-- A core that neither starts nor ends with a matching rune is what trimming leaves. -/
theorem trim_of_split (f : Char → Bool) (pre core suf : List Char)
    (hpre : ∀ r ∈ pre, f r = true) (hsuf : ∀ r ∈ suf, f r = true)
    (hhead : ∃ a t, core = a :: t ∧ f a = false)
    (hlast : ∃ z t, core.reverse = z :: t ∧ f z = false) :
    strings.TrimRightFunc (strings.TrimLeftFunc (pre ++ core ++ suf) f) f = core := by
  obtain ⟨a, t, hc, ha⟩ := hhead
  obtain ⟨z, t1, hr, hz⟩ := hlast
  have h1 : strings.TrimLeftFunc (pre ++ core ++ suf) f = core ++ suf := by
    simp only [strings.TrimLeftFunc, List.append_assoc]
    rw [dropWhile_append_all f pre _ hpre, hc]
    simp [List.dropWhile_cons, ha]
  rw [h1]
  simp only [strings.TrimRightFunc, List.reverse_append]
  rw [dropWhile_append_all f suf.reverse _ (fun r h => hsuf r (List.mem_reverse.1 h)), hr]
  simp only [List.dropWhile_cons, hz]
  rw [← hr]
  simp

theorem map_ToLower_eq (tbl : Char → Char)
    (htbl : ∀ r : Char, 0x7F < r.toNat → tbl r ∉ ['y', 'e', 's', 'n', 'o'])
    (core T : List Char) (hT : ∀ t ∈ T, t ∈ ['y', 'e', 's', 'n', 'o']) :
    core.map (unicode.ToLower tbl) = T ↔ core.map Char.toLower = T := by
  induction core generalizing T with
  | nil => simp
  | cons a core ih =>
    cases T with
    | nil => simp
    | cons t T =>
      simp only [List.map_cons, List.cons.injEq]
      rw [ToLower_eq_letter tbl htbl a t (hT t (List.mem_cons_self _ _)),
        ih T (fun x hx => hT x (List.mem_cons_of_mem _ hx))]

/-- A rune that lower-cases to a letter of `yes` or `no` is not white space. -/
theorem not_space_of_letter (a t : Char) (ht : t ∈ ['y', 'e', 's', 'n', 'o'])
    (h : Char.toLower a = t) : unicode.IsSpace a = false := by
  by_contra hs
  have hs : unicode.IsSpace a = true := by simpa using hs
  have hn := IsSpace_not_letter a hs
  have hb := toNat_of_mem_letters t ht
  have : Char.toLower a = a := by
    simp only [Char.toLower]
    rw [if_neg]
    omega
  rw [this] at h
  subst h
  omega

/-- The result of `isValidK8sUserToken` when the probe ran without error: the verdict,
and the effects: the probe and the closing log line. -/
theorem isValid_eq_ok (P : Platform) (o : k8sOptions) (out : String)
    (hprobe : P.CombinedOutput (probeCommand o) = (out, none)) :
    isValidK8sUserToken P (some o) =
      some (decide (strings.ToLower P.lowerCase (strings.TrimSpace out) = "yes" ∨
          strings.ToLower P.lowerCase (strings.TrimSpace out) = "no"),
        [Effect.exec (probeCommand o),
          if strings.ToLower P.lowerCase (strings.TrimSpace out) = "yes" ∨
            strings.ToLower P.lowerCase (strings.TrimSpace out) = "no"
          then Effect.logInfo "K8sCon check token success"
          else Effect.logError ("K8sCon check token err: " ++ strings.TrimSpace out)]) := by
  unfold probeCommand at hprobe
  simp only [isValidK8sUserToken, probeCommand, Option.bind_eq_bind, Option.some_bind,
    Option.pure_def, hprobe]
  by_cases hc : strings.ToLower P.lowerCase (strings.TrimSpace out) = "yes" ∨
      strings.ToLower P.lowerCase (strings.TrimSpace out) = "no"
  · rw [if_pos hc, if_pos hc, decide_eq_true hc]
    rfl
  · rw [if_neg hc, if_neg hc, decide_eq_false hc]
    rfl

/-- The result of `isValidK8sUserToken` when the probe returned error `e`: the same
verdict, a function of the output alone, with `e` logged after the probe. -/
theorem isValid_eq_err (P : Platform) (o : k8sOptions) (out : String) (e : GoError)
    (hprobe : P.CombinedOutput (probeCommand o) = (out, some e)) :
    isValidK8sUserToken P (some o) =
      some (decide (strings.ToLower P.lowerCase (strings.TrimSpace out) = "yes" ∨
          strings.ToLower P.lowerCase (strings.TrimSpace out) = "no"),
        [Effect.exec (probeCommand o), Effect.logInfo e.Error,
          if strings.ToLower P.lowerCase (strings.TrimSpace out) = "yes" ∨
            strings.ToLower P.lowerCase (strings.TrimSpace out) = "no"
          then Effect.logInfo "K8sCon check token success"
          else Effect.logError ("K8sCon check token err: " ++ strings.TrimSpace out)]) := by
  unfold probeCommand at hprobe
  simp only [isValidK8sUserToken, probeCommand, Option.bind_eq_bind, Option.some_bind,
    Option.pure_def, hprobe]
  by_cases hc : strings.ToLower P.lowerCase (strings.TrimSpace out) = "yes" ∨
      strings.ToLower P.lowerCase (strings.TrimSpace out) = "no"
  · rw [if_pos hc, if_pos hc, decide_eq_true hc]
    rfl
  · rw [if_neg hc, if_neg hc, decide_eq_false hc]
    rfl

theorem closing_not_launch (c : Prop) [Decidable c] (a b : String) :
    (if c then Effect.logInfo a else Effect.logError b).isLaunch = false := by
  split <;> rfl

theorem isValid_effects (P : Platform) (o : k8sOptions) (b : Bool) (fx : List Effect)
    (h : isValidK8sUserToken P (some o) = some (b, fx)) : ∀ e ∈ fx, e.isLaunch = false := by
  cases herr : (P.CombinedOutput (probeCommand o)).2 with
  | none =>
    rw [isValid_eq_ok P o (P.CombinedOutput (probeCommand o)).1 (by rw [← herr])] at h
    simp only [Option.some.injEq, Prod.mk.injEq] at h
    rw [← h.2]
    intro e he
    simp only [List.mem_cons, List.mem_singleton, List.not_mem_nil, or_false] at he
    rcases he with rfl | rfl
    · rfl
    · exact closing_not_launch _ _ _
  | some e0 =>
    rw [isValid_eq_err P o (P.CombinedOutput (probeCommand o)).1 e0 (by rw [← herr])] at h
    simp only [Option.some.injEq, Prod.mk.injEq] at h
    rw [← h.2]
    intro e he
    simp only [List.mem_cons, List.mem_singleton, List.not_mem_nil, or_false] at he
    rcases he with rfl | rfl | rfl
    · rfl
    · rfl
    · exact closing_not_launch _ _ _

/-- Lower-casing the trimmed runes gives `yes` or `no` exactly when the runes are a
letter-case variant of `yes` or `no` between white space. -/
theorem trimmed_lower_iff (tbl : Char → Char)
    (htbl : ∀ r : Char, 0x7F < r.toNat → tbl r ∉ ['y', 'e', 's', 'n', 'o']) (l : List Char) :
    ((strings.TrimRightFunc (strings.TrimLeftFunc l unicode.IsSpace) unicode.IsSpace).map
          (unicode.ToLower tbl) = ['y', 'e', 's'] ∨
      (strings.TrimRightFunc (strings.TrimLeftFunc l unicode.IsSpace) unicode.IsSpace).map
          (unicode.ToLower tbl) = ['n', 'o']) ↔
    ∃ pre core suf : List Char, l = pre ++ core ++ suf ∧
      (∀ r ∈ pre, unicode.IsSpace r = true) ∧ (∀ r ∈ suf, unicode.IsSpace r = true) ∧
      (core.map Char.toLower = ['y', 'e', 's'] ∨ core.map Char.toLower = ['n', 'o']) := by
  have hyes : ∀ t ∈ ['y', 'e', 's'], t ∈ ['y', 'e', 's', 'n', 'o'] := by decide
  have hno : ∀ t ∈ ['n', 'o'], t ∈ ['y', 'e', 's', 'n', 'o'] := by decide
  constructor
  · intro h
    obtain ⟨pre, suf, hl, hp, hs⟩ := trim_split unicode.IsSpace l
    refine ⟨pre, _, suf, hl, hp, hs, ?_⟩
    rcases h with h | h
    · exact Or.inl ((map_ToLower_eq tbl htbl _ _ hyes).1 h)
    · exact Or.inr ((map_ToLower_eq tbl htbl _ _ hno).1 h)
  · rintro ⟨pre, core, suf, hl, hp, hs, hcore⟩
    have htrim : strings.TrimRightFunc (strings.TrimLeftFunc l unicode.IsSpace) unicode.IsSpace =
        core := by
      rw [hl]
      rcases hcore with h | h
      · rcases core with _ | ⟨a, _ | ⟨b, _ | ⟨c, _ | ⟨d, t⟩⟩⟩⟩ <;>
          simp only [List.map_cons, List.map_nil, List.cons.injEq, and_true, and_false,
            reduceCtorEq] at h
        exact trim_of_split _ pre _ suf hp hs
            ⟨a, [b, c], rfl, not_space_of_letter a 'y' (by decide) h.1⟩
            ⟨c, [b, a], rfl, not_space_of_letter c 's' (by decide) h.2.2⟩
      · rcases core with _ | ⟨a, _ | ⟨b, _ | ⟨c, t⟩⟩⟩ <;>
          simp only [List.map_cons, List.map_nil, List.cons.injEq, and_true, and_false,
            reduceCtorEq] at h
        exact trim_of_split _ pre _ suf hp hs
            ⟨a, [b], rfl, not_space_of_letter a 'n' (by decide) h.1⟩
            ⟨b, [a], rfl, not_space_of_letter b 'o' (by decide) h.2⟩
    rw [htrim]
    rcases hcore with h | h
    · exact Or.inl ((map_ToLower_eq tbl htbl _ _ hyes).2 h)
    · exact Or.inr ((map_ToLower_eq tbl htbl _ _ hno).2 h)

/-- C3: when the options of a `K8sCon` fail token validation, `Connect` returns
`InValidToken`, its only effects are those of the validation itself (the probe and
log lines: no encryption, no working-directory lookup, no process launch, no window
resize), and the connection, its `LocalCommand` handle included, is unchanged. -/
theorem connect_invalid_token (P : Platform) (k : K8sCon) (win : Windows) (fx : List Effect)
    (hinv : isValidK8sUserToken P k.options = some (false, fx)) :
    Connect P k win = some (some InValidToken, k, fx) ∧ ∀ e ∈ fx, e.isLaunch = false := by
  refine ⟨by simp [Connect, hinv], ?_⟩
  cases ho : k.options with
  | none => simp [isValidK8sUserToken, ho] at hinv
  | some o => exact isValid_effects P o false fx (ho ▸ hinv)

/-- The refused probe of `unauthorizedPlatform`: `Connect` returns `InValidToken` and the connection is unchanged. -/
theorem connect_invalid_token_witness :
    ∃ fx, isValidK8sUserToken unauthorizedPlatform
        (NewK8sCon unauthorizedPlatform [K8sToken "t0k3n"]).options = some (false, fx) ∧
      Connect unauthorizedPlatform (NewK8sCon unauthorizedPlatform [K8sToken "t0k3n"]) ⟨80, 24⟩ =
        some (some InValidToken, NewK8sCon unauthorizedPlatform [K8sToken "t0k3n"], fx) ∧
      ∀ e ∈ fx, e.isLaunch = false :=
  ⟨_, rfl, connect_invalid_token unauthorizedPlatform
    (NewK8sCon unauthorizedPlatform [K8sToken "t0k3n"]) ⟨80, 24⟩ _ rfl⟩

/-- C4 as stated fails: on `denyPlatform` the probe command fails (exit status 1)
while printing `no`, and `isValidK8sUserToken` returns true. -/
theorem probe_error_fails_closed_fails :
    ¬ (∀ (P : Platform) (o : k8sOptions) (out : String) (e : GoError),
      P.CombinedOutput (probeCommand o) = (out, some e) →
      (isValidK8sUserToken P (some o)).map Prod.fst = some false) := by
  intro h
  have h1 := h denyPlatform fooOptions "no\n" (GoError.other "exit status 1") rfl
  exact absurd h1 (by decide)

/-- C4, amended: when the probe command returns a non-nil error `e`,
`isValidK8sUserToken` logs `e` and decides on the output text alone: it returns true
when the output, trimmed and lower-cased, is `yes` or `no`, and false otherwise. -/
theorem probe_error_only_logged (P : Platform) (o : k8sOptions) (out : String) (e : GoError)
    (hprobe : P.CombinedOutput (probeCommand o) = (out, some e)) :
    ∃ b fx, isValidK8sUserToken P (some o) = some (b, fx) ∧
      Effect.logInfo e.Error ∈ fx ∧
      (b = true ↔ (strings.ToLower P.lowerCase (strings.TrimSpace out) = "yes" ∨
        strings.ToLower P.lowerCase (strings.TrimSpace out) = "no")) := by
  refine ⟨_, _, isValid_eq_err P o out e hprobe, by simp, ?_⟩
  simp only [decide_eq_true_eq]

/-- Two failed probes: the refused one is invalid, the denied one (`no`, exit status 1) is valid. -/
theorem probe_error_only_logged_witness :
    (isValidK8sUserToken unauthorizedPlatform (some fooOptions)).map Prod.fst = some false ∧
    (isValidK8sUserToken denyPlatform (some fooOptions)).map Prod.fst = some true ∧
    ∃ b fx, isValidK8sUserToken denyPlatform (some fooOptions) = some (b, fx) ∧
      Effect.logInfo (GoError.other "exit status 1").Error ∈ fx ∧
      (b = true ↔ (strings.ToLower denyPlatform.lowerCase (strings.TrimSpace "no\n") = "yes" ∨
        strings.ToLower denyPlatform.lowerCase (strings.TrimSpace "no\n") = "no")) :=
  ⟨by decide, by decide,
    probe_error_only_logged denyPlatform fooOptions "no\n" (GoError.other "exit status 1") rfl⟩

/-- C5: for every options value and every probe output, with or without a probe error,
`isValidK8sUserToken` returns true exactly when the output is a definitive answer, that
is `yes` or `no` once surrounding white space is removed and letter case is ignored, and
false for every other output (given a case table that sends no rune above ASCII to
a letter of `yes` or `no`). -/
theorem token_valid_iff_definitive (P : Platform) (o : k8sOptions) (out : String)
    (err : Option GoError) (hprobe : P.CombinedOutput (probeCommand o) = (out, err))
    (htbl : P.lowerCaseSound) :
    ∃ b fx, isValidK8sUserToken P (some o) = some (b, fx) ∧ (b = true ↔ Definitive out) := by
  have hiff : (strings.ToLower P.lowerCase (strings.TrimSpace out) = "yes" ∨
      strings.ToLower P.lowerCase (strings.TrimSpace out) = "no") ↔ Definitive out := by
    refine Iff.trans ?_ (trimmed_lower_iff P.lowerCase htbl out.data)
    simp only [strings.ToLower, strings.TrimSpace, String.ext_iff]
  cases err with
  | none =>
    exact ⟨_, _, isValid_eq_ok P o out hprobe, by simp only [decide_eq_true_eq]; exact hiff⟩
  | some e =>
    exact ⟨_, _, isValid_eq_err P o out e hprobe, by simp only [decide_eq_true_eq]; exact hiff⟩

/-- The answer `Yes` between white space is definitive and accepted. -/
theorem token_valid_iff_definitive_witness :
    yesPlatform.lowerCaseSound ∧ Definitive " Yes\r\n" ∧
    ∃ b fx, isValidK8sUserToken yesPlatform (some fooOptions) = some (b, fx) ∧
      (b = true ↔ Definitive " Yes\r\n") :=
  ⟨fun r hr => by
      have hb : ∀ t ∈ ['y', 'e', 's', 'n', 'o'], t.toNat ≤ 0x7F := by decide
      exact fun hm => absurd (hb r hm) (by omega),
    ⟨[' '], ['Y', 'e', 's'], ['\r', '\n'], rfl, by decide, by decide, Or.inl (by decide)⟩,
    token_valid_iff_definitive yesPlatform fooOptions " Yes\r\n" none rfl
      (fun r hr => by
        have hb : ∀ t ∈ ['y', 'e', 's', 'n', 'o'], t.toNat ≤ 0x7F := by decide
        exact fun hm => absurd (hb r hm) (by omega))⟩

/-- C7, evaluated: options built with `K8sExtraEnvs` carry the extra variable `FOO=bar`,
yet for all such options `Env()` is exactly the five fixed entries and `FOO=bar` is not
among them, on every platform. -/
theorem env_drops_extra (P : Platform) (clusterServer username token : String)
    (isSkipTls : Bool) :
    (NewK8sCon P [K8sExtraEnvs [("FOO", "bar")]]).options =
      some { ClusterServer := "https://127.0.0.1:8443", Username := P.USER, Token := "",
             IsSkipTls := true, ExtraEnv := [("FOO", "bar")] } ∧
    "FOO=bar" ∉ (Env P ⟨clusterServer, username, token, isSkipTls, [("FOO", "bar")]⟩).1 ∧
    (Env P ⟨clusterServer, username, token, isSkipTls, [("FOO", "bar")]⟩).1.length = 5 := by
  generalize ho : (⟨clusterServer, username, token, isSkipTls, [("FOO", "bar")]⟩ : k8sOptions) = o
  refine ⟨rfl, ?_⟩
  have hne : ∀ (p x : String), p.data.head? ≠ some 'F' → p ≠ "" → "FOO=bar" ≠ p ++ x := by
    intro p x hp hp0 h
    have hd := congrArg String.data h
    rw [String.data_append] at hd
    cases hpd : p.data with
    | nil => exact hp0 (String.ext hpd)
    | cons c t =>
      rw [hpd] at hd hp
      simp only [List.cons_append] at hd
      have : 'F' = c := (List.cons.inj hd).1
      exact hp (by simp [← this])
  have h5 : ∀ tok : String, "FOO=bar" ∉
      [ "KUBECTL_USER=" ++ o.Username, "KUBECTL_CLUSTER=" ++ o.ClusterServer,
        "KUBECTL_INSECURE_SKIP_TLS_VERIFY=" ++ (if (!o.IsSkipTls) = true then "false" else "true"),
        "K8S_ENCRYPTED_TOKEN=" ++ tok, "WELCOME_BANNER=" ++ P.KubectlBanner ] := by
    intro tok hm
    simp only [List.mem_cons, List.mem_singleton, List.not_mem_nil, or_false] at hm
    rcases hm with h | h | h | h | h
    all_goals exact hne _ _ (by decide) (by decide) h
  unfold Env
  rcases hE : P.Encrypt o.Token P.CipherKey with ⟨tok, _ | err⟩
  · exact ⟨h5 tok, rfl⟩
  · exact ⟨h5 o.Token, rfl⟩

end srvconn

end Koko
